import Mathlib

/-!
Verification of the bounded concurrent batch dispatcher shared by the
inference scripts of this repository, together with its downstream
answer-extraction and majority-vote helpers.

The Python sources are shallowly embedded: the external collaborators of a
dispatcher (frame store, image encoder, remote inference client) become
fields of an environment record, exceptions of the provider client become an
`Except` value, and the per-item `process_question` coroutine becomes a pure
function from the environment to its result record, paired with the list of
remote requests it issued.  The `asyncio` semaphore discipline is embedded
separately as a small-step transition system.
-/

/-- One (id, question) row of the input CSV, as consumed by `process_batch`
(`q['id']`, `q['question']`). -/
structure WorkItem where
  id : String
  question : String
deriving DecidableEq, Repr

namespace Frames8

/-- One element of the `content` list built by
`8_frames_testing/inference4o_8frames.py::process_question`: either the
`{"type": "text", ...}` part or a `{"type": "image_url", ...}` part. -/
inductive ContentPart where
  | text (s : String)
  | imageUrl (url : String)
deriving DecidableEq, Repr

/-- The per-item result dict of `inference4o_8frames.py::process_question`:
`{"video_id", "answer", "finish_reason"}` on success (lines 130-134),
`{"video_id", "error"}` on failure (lines 140-143). -/
inductive Result8 where
  | success (videoId answer finishReason : String)
  | failure (videoId error : String)
deriving DecidableEq, Repr

/-- The `video_id` field, present in both branches of `Result8`. -/
def Result8.videoId : Result8 → String
  | .success v _ _ => v
  | .failure v _ => v

/-- External collaborators of `AsyncGPT4VProcessor`:
`frames` is `get_frame_paths` (the sorted `frame_*.jpg` files under
`extracted_frames_8/<video_id>`), `encode` is `encode_image` (base64 of the
file at a path), and `call` is `client.chat.completions.create` on the built
content, yielding `(choices[0].message.content, choices[0].finish_reason)`
or raising (modelled as `Except.error` carrying `str(e)`). -/
structure Env8 where
  frames : String → List String
  encode : String → String
  call : List ContentPart → Except String (String × String)

/-- The prompt of `inference4o_8frames.py::create_prompt` (lines 68-76),
with the f-string interpolations written as concatenation. -/
def create_prompt (question : String) (frame_count : Nat := 8) : String :=
  "I am showing you " ++ toString frame_count ++ " equally spaced frames from a 5-second video. \nThe frames are numbered 1 through " ++ toString frame_count ++ " in chronological order.\nBased on these frames, you will answer a multiple choice question. Go through your reasoning through the different frames then put\nall that reasoning together to choose the best answer from the multiple choice options. Remember that some frames are more\nimportant than others when it comes to answering the question. Make sure at the end of your answer you \noutput the best answer letter choice in <answer></answer> tags. Here is the multiple choice question:\n\n" ++ question ++ "\n"

/-- The `content` list sent to the API (lines 98-113): the text prompt
followed by one base64 data-URL image per frame path. -/
def requestContent (env : Env8) (question : String) (framePaths : List String) : List ContentPart :=
  ContentPart.text (create_prompt question) ::
    framePaths.map (fun path => ContentPart.imageUrl ("data:image/jpeg;base64," ++ env.encode path))

/-- Embedding of `inference4o_8frames.py::process_question` (lines 78-143).
Besides the result dict it returns the list of remote requests issued, so
that "no remote call is attempted" is expressible.  The `try` block raises
`FileNotFoundError(f"No frames found for video ID {video_id}")` when the
frame list is empty; the blanket `except` turns any exception `e` into
`{"video_id": video_id, "error": str(e)}`. -/
def process_question (env : Env8) (videoId question : String) :
    Result8 × List (List ContentPart) :=
  let framePaths := env.frames videoId
  if framePaths = [] then
    (.failure videoId ("No frames found for video ID " ++ videoId), [])
  else
    let content := requestContent env question framePaths
    match env.call content with
    | .ok (answer, finishReason) => (.success videoId answer finishReason, [content])
    | .error e => (.failure videoId e, [content])

/-- Embedding of `inference4o_8frames.py::process_batch` (lines 145-160):
one task per question, gathered by `asyncio.gather`, which returns the
awaited results in the order the tasks were passed. -/
def process_batch (env : Env8) (questions : List WorkItem) : List Result8 :=
  questions.map (fun q => (process_question env q.id q.question).1)

end Frames8

namespace GeminiPro

/-- One element of the `contents` list built by
`gemini_pro.py::process_question`: the prompt string or one
`Part.from_data` JPEG image part. -/
inductive GPart where
  | text (s : String)
  | image (data : String)
deriving DecidableEq, Repr

/-- The per-item result dict of `gemini_pro.py::process_question`:
`{"video_id", "answer"}` on success (lines 94-97), `{"video_id", "error"}`
on failure (lines 101-104). -/
inductive ResultG where
  | success (videoId answer : String)
  | failure (videoId error : String)
deriving DecidableEq, Repr

/-- The `video_id` field, present in both branches of `ResultG`. -/
def ResultG.videoId : ResultG → String
  | .success v _ => v
  | .failure v _ => v

/-- External collaborators of `GeminiProcessor` in `gemini_pro.py`:
`frames` is `get_frame_paths` (sorted `frame_*.jpg` under
`extracted_frames/<video_id>`), `loadImage` is `PIL.Image.open` composed
with `image_to_bytes` (the JPEG bytes of the image at a path), and `call`
is `self.model.generate_content(contents, generation_config)` yielding
`response.text` or raising. -/
structure EnvG where
  frames : String → List String
  loadImage : String → String
  call : List GPart → Except String String

/-- The prompt of `gemini_pro.py::create_prompt` (lines 44-57). -/
def create_prompt (question : String) : String :=
  "You have 5 equally spaced frames (Frame 1 through Frame 5) captured from a 5-second dashcam video, taken from the driver’s forward-facing perspective.\n\nUsing these frames, answer the following multiple-choice question by choosing the single best answer. Incorporate any relevant details observed in the frames (for example, lanes, signage, vehicles, pedestrians, traffic signals, road markings, obstructions) that might help in selecting the correct answer. Consider how details may change across the frames and note that some frames may be more crucial than others. Explain your reasoning in detail.\n\nSteps to follow:\n1. **Frame-by-Frame Analysis:** Describe the significant elements you notice in each of the 5 frames (e.g., signs, road markings, obstructions, other vehicles, potential hazards). Make sure you particularly pay attention to road markings or signs with directional arrows whenever the question asks about the possible directions a given lane can go. \n2. **Contextual Reasoning:** Integrate the observations from each frame. Think about what is happening over time, which elements are most relevant, and how they connect to the question.\n3. **Match to Answer Choices:** Relate your findings to each of the multiple-choice options. Eliminate those that are inconsistent with the visual evidence or standard traffic rules, and select the most appropriate remaining choice.\n4. **Provide the Best Answer:** Conclude with the final choice that best matches the situation. Output that choice in `<answer></answer>` tags.\n\nNow, here is the question and its multiple-choice options:\n\n" ++ question ++ "\n"

/-- The `contents` list `[prompt, *image_parts]` (lines 70-83). -/
def requestContents (env : EnvG) (question : String) (framePaths : List String) : List GPart :=
  GPart.text (create_prompt question) ::
    framePaths.map (fun path => GPart.image (env.loadImage path))

/-- Embedding of `gemini_pro.py::process_question` (lines 59-104), with the
same conventions as `Frames8.process_question`: the second component lists
the remote requests issued. -/
def process_question (env : EnvG) (videoId question : String) :
    ResultG × List (List GPart) :=
  let framePaths := env.frames videoId
  if framePaths = [] then
    (.failure videoId ("No frames found for video ID " ++ videoId), [])
  else
    let contents := requestContents env question framePaths
    match env.call contents with
    | .ok answer => (.success videoId answer, [contents])
    | .error e => (.failure videoId e, [contents])

/-- Embedding of `gemini_pro.py::process_batch` (lines 106-113). -/
def process_batch (env : EnvG) (questions : List WorkItem) : List ResultG :=
  questions.map (fun q => (process_question env q.id q.question).1)

end GeminiPro

namespace Reasoning

/-- The per-item result dict of `inference_4o_reasoning.py::process_question`:
`{"answer", "finish_reason"}` on success (lines 170-173) or `{"error"}` on
failure (line 179).  Unlike the other variants, neither branch records the
video id. -/
inductive ResultR where
  | success (answer finishReason : String)
  | failure (error : String)
deriving DecidableEq, Repr

/-- The prompt of `inference_4o_reasoning.py::create_prompt` (lines 68-116). -/
def create_prompt (question : String) (frame_count : Nat := 5) : String :=
  "I am showing you " ++ toString frame_count ++ " equally spaced frames from a 5-second dashcam video captured from the driver\x27s perspective (ego vehicle). The frames are numbered 1 through " ++ toString frame_count ++ " in chronological order.\n\nFor each frame, provide a detailed analysis focusing on:\n1. Traffic and Road Elements:\n   - Traffic light states and positions\n   - Traffic signs and road markings\n   - Lane configurations and markings\n   - Construction or road blockages\n   - Intersection details and permitted turning directions\n   \n2. Vehicle Dynamics:\n   - Position and behavior of ego vehicle\n   - Positions and behaviors of other vehicles\n   - Turn signals/blinkers of all vehicles\n   - Approximate distances between vehicles\n   - Lane positions and changes\n   \n3. Road Users and Hazards:\n   - Pedestrians and their locations\n   - Crosswalks and crossing activity\n   - Bicyclists and bike lanes\n   - Emergency vehicles\n   - Road conditions or hazards (snow, construction, etc.)\n\n4. Environmental Context:\n   - Building types or destinations\n   - Street signs and exit numbers\n   - Parking regulations or restrictions\n   - Number of lanes in each direction\n   - Special lanes (bus, HOV, turn-only)\n\nAfter analyzing individual frames, examine the sequence as a whole to track:\n1. Changes in vehicle positions and movements\n2. Traffic light cycles\n3. Pedestrian movement patterns\n4. Evolution of potential hazards or obstacles\n5. Complete maneuvers or turns being executed\n\nI will provide a multiple choice question that you should use to:\n- Focus on elements specifically mentioned in the question\n- Note details that could distinguish between answer choices\n- Track relevant changes across the frame sequence\n\nImportant: Do not answer the question yet. Instead, use it to guide your detailed observations of both individual frames and the overall sequence.\n\nHere is the question:\n\n" ++ question ++ "\n"

/-- The `content` list of `inference_4o_reasoning.py` (lines 138-153),
structurally identical to the 8-frame variant but with this file's prompt. -/
def requestContent (env : Frames8.Env8) (question : String) (framePaths : List String) :
    List Frames8.ContentPart :=
  Frames8.ContentPart.text (create_prompt question) ::
    framePaths.map (fun path =>
      Frames8.ContentPart.imageUrl ("data:image/jpeg;base64," ++ env.encode path))

/-- Embedding of `inference_4o_reasoning.py::process_question` (lines
118-179).  The environment has the same collaborator shape as the 8-frame
variant (frame dir `extracted_frames`, base64 encoding, chat-completions
call); the result dict carries no video id. -/
def process_question (env : Frames8.Env8) (videoId question : String) :
    ResultR × List (List Frames8.ContentPart) :=
  let framePaths := env.frames videoId
  if framePaths = [] then
    (.failure ("No frames found for video ID " ++ videoId), [])
  else
    let content := requestContent env question framePaths
    match env.call content with
    | .ok (answer, finishReason) => (.success answer finishReason, [content])
    | .error e => (.failure e, [content])

/-- Embedding of `inference_4o_reasoning.py::process_batch` (lines 181-196). -/
def process_batch (env : Frames8.Env8) (questions : List WorkItem) : List ResultR :=
  questions.map (fun q => (process_question env q.id q.question).1)

end Reasoning

/-- An environment whose frame store has zero files for every identifier
(used to instantiate hypotheses about missing frames). -/
def emptyEnv8 : Frames8.Env8 :=
  { frames := fun _ => [], encode := fun p => p, call := fun _ => .error "unreachable" }

/-- The Gemini-side environment with an empty frame store. -/
def emptyEnvG : GeminiPro.EnvG :=
  { frames := fun _ => [], loadImage := fun p => p, call := fun _ => .error "unreachable" }

/-- An environment with one frame per identifier whose remote call always
raises (message "boom"). -/
def failingEnv8 : Frames8.Env8 :=
  { frames := fun _ => ["frame_1.jpg"], encode := fun p => p, call := fun _ => .error "boom" }

/-- An environment with one frame per identifier whose remote call always
succeeds with text "A" and finish reason "stop". -/
def okEnv8 : Frames8.Env8 :=
  { frames := fun _ => ["frame_1.jpg"], encode := fun p => p, call := fun _ => .ok ("A", "stop") }

/-- Helper: the 8-frame variant stamps the processed video id on both
branches of its result dict. -/
theorem frames8_process_question_videoId (env : Frames8.Env8) (videoId question : String) :
    (Frames8.process_question env videoId question).1.videoId = videoId := by
  unfold Frames8.process_question
  by_cases h : env.frames videoId = []
  · simp [h, Frames8.Result8.videoId]
  · simp only [if_neg h]
    cases env.call (Frames8.requestContent env question (env.frames videoId)) with
    | ok p => cases p; simp [Frames8.Result8.videoId]
    | error e => simp [Frames8.Result8.videoId]

/-- Helper: the Gemini Pro variant stamps the processed video id on both
branches of its result dict. -/
theorem geminiPro_process_question_videoId (env : GeminiPro.EnvG) (videoId question : String) :
    (GeminiPro.process_question env videoId question).1.videoId = videoId := by
  unfold GeminiPro.process_question
  by_cases h : env.frames videoId = []
  · simp [h, GeminiPro.ResultG.videoId]
  · simp only [if_neg h]
    cases env.call (GeminiPro.requestContents env question (env.frames videoId)) with
    | ok p => simp [GeminiPro.ResultG.videoId]
    | error e => simp [GeminiPro.ResultG.videoId]

/-- Claim C1: for every batch of M work items, `process_batch` (8-frame and
Gemini Pro variants, both built on one task per item gathered by
`asyncio.gather`) returns exactly M results, and the i-th result carries the
i-th item's identifier — no item lost, none duplicated, whatever the mix of
per-item successes and failures (the environment is arbitrary). -/
theorem process_batch_one_result_per_item (env : Frames8.Env8) (envG : GeminiPro.EnvG)
    (qs : List WorkItem) :
    (Frames8.process_batch env qs).length = qs.length ∧
    (GeminiPro.process_batch envG qs).length = qs.length ∧
    (∀ i : Nat, ((Frames8.process_batch env qs)[i]?).map Frames8.Result8.videoId
        = (qs[i]?).map WorkItem.id) ∧
    (∀ i : Nat, ((GeminiPro.process_batch envG qs)[i]?).map GeminiPro.ResultG.videoId
        = (qs[i]?).map WorkItem.id) := by
  refine ⟨List.length_map .., List.length_map .., fun i => ?_, fun i => ?_⟩
  · rw [Frames8.process_batch, List.getElem?_map]
    cases h : qs[i]? with
    | none => rfl
    | some q => simp [frames8_process_question_videoId]
  · rw [GeminiPro.process_batch, List.getElem?_map]
    cases h : qs[i]? with
    | none => rfl
    | some q => simp [geminiPro_process_question_videoId]

/-- Claim C3: when the frame store has zero files for an identifier, the
result of `process_question` is the error result whose message names the
missing frames, and no remote request is issued (empty request log), in both
the 8-frame and Gemini Pro variants. -/
theorem no_frames_error_without_remote_call (env : Frames8.Env8) (envG : GeminiPro.EnvG)
    (videoId question : String)
    (h8 : env.frames videoId = []) (hG : envG.frames videoId = []) :
    Frames8.process_question env videoId question
      = (.failure videoId ("No frames found for video ID " ++ videoId), []) ∧
    GeminiPro.process_question envG videoId question
      = (.failure videoId ("No frames found for video ID " ++ videoId), []) := by
  constructor
  · simp [Frames8.process_question, h8]
  · simp [GeminiPro.process_question, hG]

/-- Witness for C3 at a concrete input: id "00002" with an empty frame
store, in both variants. -/
theorem no_frames_error_witness :
    Frames8.process_question emptyEnv8 "00002" "Q"
      = (.failure "00002" "No frames found for video ID 00002", []) ∧
    GeminiPro.process_question emptyEnvG "00002" "Q"
      = (.failure "00002" "No frames found for video ID 00002", []) :=
  no_frames_error_without_remote_call emptyEnv8 emptyEnvG "00002" "Q" rfl rfl

/-- Claim C4: an exception raised by the remote call for one item is caught
at that item's boundary (blanket `except` in `process_question`) and becomes
that item's error result; the batch keeps its full length, and every other
item's slot holds exactly its own `process_question` outcome. -/
theorem item_failure_converted_and_isolated (env : Frames8.Env8) (qs : List WorkItem)
    (i : Nat) (q : WorkItem) (e : String)
    (hq : qs[i]? = some q)
    (hframes : env.frames q.id ≠ [])
    (hcall : env.call (Frames8.requestContent env q.question (env.frames q.id)) = .error e) :
    (Frames8.process_batch env qs)[i]? = some (.failure q.id e) ∧
    (Frames8.process_batch env qs).length = qs.length ∧
    ∀ j : Nat, j ≠ i → (Frames8.process_batch env qs)[j]?
        = (qs[j]?).map (fun r => (Frames8.process_question env r.id r.question).1) := by
  refine ⟨?_, List.length_map .., fun j _ => ?_⟩
  · rw [Frames8.process_batch, List.getElem?_map, hq]
    have hpq : Frames8.process_question env q.id q.question
        = (.failure q.id e, [Frames8.requestContent env q.question (env.frames q.id)]) := by
      unfold Frames8.process_question
      simp only [if_neg hframes, hcall]
    simp [hpq]
  · rw [Frames8.process_batch, List.getElem?_map]

/-- Witness for C4 at a concrete input: a two-item batch under an
environment whose remote call always raises "boom"; item 0's hypotheses are
discharged concretely and item 1's slot is its own outcome. -/
theorem item_failure_witness :
    (Frames8.process_batch failingEnv8 [⟨"00001", "Q1"⟩, ⟨"00002", "Q2"⟩])[0]?
      = some (.failure "00001" "boom") ∧
    (Frames8.process_batch failingEnv8 [⟨"00001", "Q1"⟩, ⟨"00002", "Q2"⟩]).length = 2 ∧
    (Frames8.process_batch failingEnv8 [⟨"00001", "Q1"⟩, ⟨"00002", "Q2"⟩])[1]?
      = some (.failure "00002" "boom") := by
  have h := item_failure_converted_and_isolated failingEnv8 [⟨"00001", "Q1"⟩, ⟨"00002", "Q2"⟩]
      0 ⟨"00001", "Q1"⟩ "boom" rfl (List.cons_ne_nil _ _) rfl
  refine ⟨h.1, h.2.1, ?_⟩
  have h2 := h.2.2 1 (by decide)
  rw [h2]
  rfl

/-- Claim C5 counterexample: in the reasoning variant
(`inference_4o_reasoning.py`, lines 169-179) the result dict carries no
identifier at all; two distinct work items (ids "00001" and "00002") yield
byte-identical results, so a Result of this variant does not determine the
WorkItem it belongs to. -/
theorem reasoning_result_lacks_identifier :
    (Reasoning.process_question okEnv8 "00001" "Q").1
      = (Reasoning.process_question okEnv8 "00002" "Q").1 ∧
    (Reasoning.process_question okEnv8 "00001" "Q").1
      = Reasoning.ResultR.success "A" "stop" := by
  constructor <;> rfl

/-- Claim C5 (amended): in the dispatcher variants whose result dict records
the id — the 8-frame and Gemini Pro variants — every result, success or
failure, carries the identifier of its work item; the reasoning variant's
results carry no identifier and are associated to their items positionally
(zip in its `main`). -/
theorem result_carries_identifier_in_id_variants (env : Frames8.Env8) (envG : GeminiPro.EnvG)
    (videoId question : String) :
    (Frames8.process_question env videoId question).1.videoId = videoId ∧
    (GeminiPro.process_question envG videoId question).1.videoId = videoId :=
  ⟨frames8_process_question_videoId env videoId question,
   geminiPro_process_question_videoId envG videoId question⟩

/-- Claim C7: the sequence returned by `process_batch` is in the original
input order — the i-th result is the outcome of the i-th work item (that is
what `asyncio.gather` returns, regardless of completion order), and `main`'s
`zip(questions, results)` therefore pairs each item with its own result. -/
theorem process_batch_preserves_input_order (env : Frames8.Env8) (qs : List WorkItem) :
    (∀ i : Nat, (Reasoning.process_batch env qs)[i]?
        = (qs[i]?).map (fun q => (Reasoning.process_question env q.id q.question).1)) ∧
    qs.zip (Reasoning.process_batch env qs)
      = qs.map (fun q => (q, (Reasoning.process_question env q.id q.question).1)) := by
  constructor
  · intro i
    rw [Reasoning.process_batch, List.getElem?_map]
  · induction qs with
    | nil => rfl
    | cons q rest ih =>
        simp only [Reasoning.process_batch, List.map_cons, List.zip_cons_cons] at ih ⊢
        rw [ih]

/-- Helper: setting index i (known to hold `a`) to `b` changes a `countP`
by swapping `a`'s contribution for `b`'s. -/
theorem countP_set_add {α : Type} (l : List α) (i : Nat) (a b : α) (p : α → Bool)
    (h : l[i]? = some a) :
    (l.set i b).countP p + (if p a then 1 else 0) = l.countP p + (if p b then 1 else 0) := by
  induction l generalizing i with
  | nil => simp at h
  | cons x xs ih =>
      cases i with
      | zero =>
          simp only [List.getElem?_cons_zero, Option.some_inj] at h
          subst h
          simp only [List.set_cons_zero, List.countP_cons]
          omega
      | succ n =>
          simp only [List.getElem?_cons_succ] at h
          simp only [List.set_cons_succ, List.countP_cons]
          have := ih n h
          omega

namespace Sem

/-- Execution state of one `process_question` task with respect to the
semaphore of `inference4o_8frames.py`: `pending` = created but not yet past
`async with self.semaphore`; `inflight` = inside the `with` block (the
`try` around the remote call); `done ok` = returned, the success dict when
`ok` and the error dict otherwise, with the permit released by the `with`
block on either path. -/
inductive TaskState where
  | pending
  | inflight
  | done (ok : Bool)
deriving DecidableEq, Repr

/-- Whether a task currently holds a permit and is executing its call. -/
def isInflight : TaskState → Bool
  | .inflight => true
  | _ => false

/-- Scheduler state: the semaphore's internal counter plus the state of
each of the batch's tasks. -/
structure SemState where
  avail : Nat
  tasks : List TaskState
deriving DecidableEq, Repr

/-- Number of calls concurrently in flight. -/
def inflightCount (s : SemState) : Nat := s.tasks.countP isInflight

/-- One cooperative-scheduler step.  `asyncio.Semaphore.acquire` suspends
while the counter is zero and otherwise decrements it, so a pending task
enters its call only when a permit is available; `async with` releases the
permit (incrementing the counter) on both the normal return and the
exception path of the block. -/
inductive Step : SemState → SemState → Prop where
  | acquire (i : Nat) (s : SemState) (h : s.tasks[i]? = some .pending) (hpos : 0 < s.avail) :
      Step s ⟨s.avail - 1, s.tasks.set i .inflight⟩
  | release (i : Nat) (ok : Bool) (s : SemState) (h : s.tasks[i]? = some .inflight) :
      Step s ⟨s.avail + 1, s.tasks.set i (.done ok)⟩

/-- Start of a batch run: `Semaphore(max_concurrent_requests)` with counter
`n`, and one not-yet-started task per work item. -/
def init (n m : Nat) : SemState := ⟨n, List.replicate m .pending⟩

/-- States a batch run of `m` items under concurrency limit `n` can reach. -/
def Reachable (n m : Nat) (s : SemState) : Prop := Relation.ReflTransGen Step (init n m) s

/-- Helper invariant: available permits plus in-flight calls always equal
the configured limit. -/
theorem reachable_avail_add_inflight (n m : Nat) (s : SemState) (h : Reachable n m s) :
    s.avail + inflightCount s = n := by
  induction h with
  | refl =>
      have hz : inflightCount (init n m) = 0 := by
        unfold inflightCount init
        rw [List.countP_eq_zero]
        intro a ha
        rw [List.eq_of_mem_replicate ha]
        simp [isInflight]
      rw [hz]
      simp [init]
  | @tail b c hr hstep ih =>
      cases hstep with
      | acquire i u hget hpos =>
          have hc := countP_set_add b.tasks i .pending .inflight isInflight hget
          simp [isInflight] at hc
          simp only [inflightCount] at ih ⊢
          omega
      | release i ok u hget =>
          have hc := countP_set_add b.tasks i .inflight (.done ok) isInflight hget
          simp [isInflight] at hc
          simp only [inflightCount] at ih ⊢
          omega

/-- Claim C2: in every state reachable during a batch run — any batch size
`m`, any interleaving of acquisitions and completions (hence any per-call
latency pattern) — the number of remote calls concurrently in flight never
exceeds the configured maximum `n`. -/
theorem inflight_calls_never_exceed_limit (n m : Nat) (s : SemState) (h : Reachable n m s) :
    inflightCount s ≤ n := by
  have := reachable_avail_add_inflight n m s h
  omega

/-- Witness for C2: after two tasks of a three-item batch under limit 5
acquire their permits, the in-flight count (2) is within the limit. -/
theorem inflight_bound_witness :
    inflightCount ⟨3, [.inflight, .inflight, .pending]⟩ ≤ 5 := by
  apply inflight_calls_never_exceed_limit 5 3
  have h1 : Step (init 5 3) ⟨4, [.inflight, .pending, .pending]⟩ :=
    Step.acquire 0 (init 5 3) rfl (by decide)
  have h2 : Step ⟨4, [.inflight, .pending, .pending]⟩ ⟨3, [.inflight, .inflight, .pending]⟩ :=
    Step.acquire 1 ⟨4, [.inflight, .pending, .pending]⟩ rfl (by decide)
  exact Relation.ReflTransGen.tail (Relation.ReflTransGen.tail Relation.ReflTransGen.refl h1) h2

/-- Claim C6: a call is in flight only while holding exactly one permit
(acquired before the call: `acquire` is the only rule producing `inflight`,
and it consumes a permit), the permit is released on both exit paths of the
per-item operation (`release` covers `ok = true` and `ok = false` alike),
and once every task of the batch is finished the semaphore counter is back
at the configured `n`. -/
theorem permit_released_on_all_paths (n m : Nat) (s : SemState) (h : Reachable n m s) :
    s.avail + inflightCount s = n ∧
    ((∀ t ∈ s.tasks, ∃ ok, t = TaskState.done ok) → s.avail = n) := by
  have hinv := reachable_avail_add_inflight n m s h
  refine ⟨hinv, fun hall => ?_⟩
  have hz : inflightCount s = 0 := by
    unfold inflightCount
    rw [List.countP_eq_zero]
    intro a ha
    obtain ⟨ok, rfl⟩ := hall a ha
    simp [isInflight]
  omega

/-- Witness for C6: a one-item batch under limit 1 runs to completion
(acquire, then release on the success path) and the counter is restored
to 1. -/
theorem permit_restored_witness :
    (SemState.mk 1 [TaskState.done true]).avail
        + inflightCount (SemState.mk 1 [TaskState.done true]) = 1 ∧
    (SemState.mk 1 [TaskState.done true]).avail = 1 := by
  have h1 : Step (init 1 1) ⟨0, [TaskState.inflight]⟩ :=
    Step.acquire 0 (init 1 1) rfl (by decide)
  have h2 : Step ⟨0, [TaskState.inflight]⟩ ⟨1, [TaskState.done true]⟩ :=
    Step.release 0 true ⟨0, [TaskState.inflight]⟩ rfl
  have hreach : Reachable 1 1 ⟨1, [TaskState.done true]⟩ :=
    Relation.ReflTransGen.tail (Relation.ReflTransGen.tail Relation.ReflTransGen.refl h1) h2
  have h := permit_released_on_all_paths 1 1 ⟨1, [TaskState.done true]⟩ hreach
  refine ⟨h.1, h.2 ?_⟩
  intro t ht
  simp only [List.mem_singleton] at ht
  exact ⟨true, ht⟩

end Sem

namespace GeminiVideo

/-- Embedding of `self.batch_size` in `gemini_video.py` (line 29): number of successful
requests between cooldown sleeps. -/
def batch_size : Nat := 5

/-- Embedding of `self.sleep_duration` in `gemini_video.py` (line 30): seconds slept at
each cooldown. -/
def sleep_duration : Nat := 0

/-- The per-item result dict of `gemini_video.py::process_question`:
`{"video_id", "answer"}` on success, `{"video_id", "error"}` on failure. -/
inductive ResultV where
  | success (videoId answer : String)
  | failure (videoId error : String)
deriving DecidableEq, Repr

/-- Remote collaborator of `GeminiProcessor` in `gemini_video.py`:
`generate_content` on (GCS video uri, prompt), yielding `response.text` or
raising. -/
structure EnvV where
  call : String → String → Except String String

/-- Embedding of `str(id_num).zfill(5)` / `video_id.zfill(width)`: left-pad with zeros. -/
def zfill (s : String) (width : Nat) : String :=
  if width ≤ s.length then s
  else String.mk (List.replicate (width - s.length) '0') ++ s

/-- The GCS path built on line 37 of `gemini_video.py`. -/
def videoPath (videoId : String) : String :=
  "gs://tesla_videos/videos/" ++ zfill videoId 5 ++ ".mp4"

/-- Embedding of `gemini_video.py::process_question` (lines 32-79) as a
state-passing function on `self.request_count`, abstracting the prompt
construction into the call collaborator's second argument (the question).
Returns the result dict, the updated `request_count`, and the seconds this
task sleeps inside its semaphore scope before returning.  On an exception
the counter increment and the sleep check (lines 61-67) are skipped, since
control jumps to the `except` block. -/
def process_question (env : EnvV) (request_count : Nat) (videoId question : String) :
    ResultV × Nat × Nat :=
  match env.call (videoPath videoId) question with
  | .ok text =>
      let c := request_count + 1
      (.success videoId text, c, if c % batch_size = 0 then sleep_duration else 0)
  | .error e => (.failure videoId e, request_count, 0)

/-- Execution state of one `gemini_video.py` task: `pending` = before
`async with self.semaphore`; `calling` = holding a permit, awaiting
`generate_content`; `cooling` = call returned as the `batch_size`-th
success and the task is inside `await asyncio.sleep(self.sleep_duration)`,
still holding its permit; `done` = returned, permit released. -/
inductive VTask where
  | pending
  | calling
  | cooling
  | done
deriving DecidableEq, Repr

/-- Scheduler state of the cooldown variant: semaphore counter, the shared
`self.request_count`, and the per-task states. -/
structure VState where
  avail : Nat
  count : Nat
  tasks : List VTask
deriving DecidableEq, Repr

/-- One cooperative-scheduler step of the `gemini_video.py` dispatcher.
`start` is permit acquisition; `callOk` is a successful call whose
incremented count is not a multiple of `batch_size` (no sleep, return,
release); `callOkCooldown` is a successful call that makes the count a
multiple of `batch_size`, sending that task (alone) into the sleep while it
keeps its permit; `callErr` is a raising call (count untouched, error dict
returned, permit released); `wake` ends a sleeping task's cooldown
(return, release). -/
inductive VStep : VState → VState → Prop where
  | start (i : Nat) (s : VState) (h : s.tasks[i]? = some .pending) (hpos : 0 < s.avail) :
      VStep s ⟨s.avail - 1, s.count, s.tasks.set i .calling⟩
  | callOk (i : Nat) (s : VState) (h : s.tasks[i]? = some .calling)
      (hmod : (s.count + 1) % batch_size ≠ 0) :
      VStep s ⟨s.avail + 1, s.count + 1, s.tasks.set i .done⟩
  | callOkCooldown (i : Nat) (s : VState) (h : s.tasks[i]? = some .calling)
      (hmod : (s.count + 1) % batch_size = 0) :
      VStep s ⟨s.avail, s.count + 1, s.tasks.set i .cooling⟩
  | callErr (i : Nat) (s : VState) (h : s.tasks[i]? = some .calling) :
      VStep s ⟨s.avail + 1, s.count, s.tasks.set i .done⟩
  | wake (i : Nat) (s : VState) (h : s.tasks[i]? = some .cooling) :
      VStep s ⟨s.avail + 1, s.count, s.tasks.set i .done⟩

/-- Start of a `gemini_video.py` batch run: full semaphore, zero
`request_count`, all tasks pending. -/
def vinit (n m : Nat) : VState := ⟨n, 0, List.replicate m .pending⟩

/-- States a cooldown-variant batch of `m` items under limit `n` can reach. -/
def VReachable (n m : Nat) (s : VState) : Prop := Relation.ReflTransGen VStep (vinit n m)  s

end GeminiVideo

namespace GeminiVideo

/-- Claim C8 counterexample: the cooldown does not pause the entire
dispatcher.  Concrete run with limit 5 and six work items: tasks 0-4
acquire all permits; tasks 0-3 complete successfully (counts 1-4); task 4's
success makes `request_count` = 5, a multiple of `batch_size`, so task 4
enters the cooldown sleep — and while it is still sleeping, task 5 acquires
a free permit and starts a further call.  The reached state has task 4
cooling and task 5 calling simultaneously, so further calls proceed before
the pause ends. -/
theorem cooldown_does_not_pause_dispatcher :
    VReachable 5 6 ⟨3, 5, [.done, .done, .done, .done, .cooling, .calling]⟩ ∧
    ([VTask.done, .done, .done, .done, .cooling, .calling])[4]? = some VTask.cooling ∧
    ([VTask.done, .done, .done, .done, .cooling, .calling])[5]? = some VTask.calling := by
  refine ⟨?_, rfl, rfl⟩
  have t1 : VStep (vinit 5 6)
      ⟨4, 0, [.calling, .pending, .pending, .pending, .pending, .pending]⟩ :=
    VStep.start 0 _ rfl (by decide)
  have t2 : VStep ⟨4, 0, [.calling, .pending, .pending, .pending, .pending, .pending]⟩
      ⟨3, 0, [.calling, .calling, .pending, .pending, .pending, .pending]⟩ :=
    VStep.start 1 _ rfl (by decide)
  have t3 : VStep ⟨3, 0, [.calling, .calling, .pending, .pending, .pending, .pending]⟩
      ⟨2, 0, [.calling, .calling, .calling, .pending, .pending, .pending]⟩ :=
    VStep.start 2 _ rfl (by decide)
  have t4 : VStep ⟨2, 0, [.calling, .calling, .calling, .pending, .pending, .pending]⟩
      ⟨1, 0, [.calling, .calling, .calling, .calling, .pending, .pending]⟩ :=
    VStep.start 3 _ rfl (by decide)
  have t5 : VStep ⟨1, 0, [.calling, .calling, .calling, .calling, .pending, .pending]⟩
      ⟨0, 0, [.calling, .calling, .calling, .calling, .calling, .pending]⟩ :=
    VStep.start 4 _ rfl (by decide)
  have t6 : VStep ⟨0, 0, [.calling, .calling, .calling, .calling, .calling, .pending]⟩
      ⟨1, 1, [.done, .calling, .calling, .calling, .calling, .pending]⟩ :=
    VStep.callOk 0 _ rfl (by decide)
  have t7 : VStep ⟨1, 1, [.done, .calling, .calling, .calling, .calling, .pending]⟩
      ⟨2, 2, [.done, .done, .calling, .calling, .calling, .pending]⟩ :=
    VStep.callOk 1 _ rfl (by decide)
  have t8 : VStep ⟨2, 2, [.done, .done, .calling, .calling, .calling, .pending]⟩
      ⟨3, 3, [.done, .done, .done, .calling, .calling, .pending]⟩ :=
    VStep.callOk 2 _ rfl (by decide)
  have t9 : VStep ⟨3, 3, [.done, .done, .done, .calling, .calling, .pending]⟩
      ⟨4, 4, [.done, .done, .done, .done, .calling, .pending]⟩ :=
    VStep.callOk 3 _ rfl (by decide)
  have t10 : VStep ⟨4, 4, [.done, .done, .done, .done, .calling, .pending]⟩
      ⟨4, 5, [.done, .done, .done, .done, .cooling, .pending]⟩ :=
    VStep.callOkCooldown 4 _ rfl (by decide)
  have t11 : VStep ⟨4, 5, [.done, .done, .done, .done, .cooling, .pending]⟩
      ⟨3, 5, [.done, .done, .done, .done, .cooling, .calling]⟩ :=
    VStep.start 5 _ rfl (by decide)
  exact Relation.ReflTransGen.head t1 (Relation.ReflTransGen.head t2
    (Relation.ReflTransGen.head t3 (Relation.ReflTransGen.head t4
    (Relation.ReflTransGen.head t5 (Relation.ReflTransGen.head t6
    (Relation.ReflTransGen.head t7 (Relation.ReflTransGen.head t8
    (Relation.ReflTransGen.head t9 (Relation.ReflTransGen.head t10
    (Relation.ReflTransGen.single t11))))))))))

/-- Claim C8 (amended): after every `batch_size`-th (5th) successfully
completed call, the task that completed it itself sleeps for
`sleep_duration` (observed 0 seconds) while still holding its concurrency
permit, releasing the permit only when the sleep ends; other tasks are not
paused and may start or continue calls during the cooldown. -/
theorem cooldown_pauses_completing_task_only (s : VState) (i : Nat)
    (hcall : s.tasks[i]? = some .calling) (hmod : (s.count + 1) % batch_size = 0) :
    VStep s ⟨s.avail, s.count + 1, s.tasks.set i .cooling⟩ ∧
    VStep ⟨s.avail, s.count + 1, s.tasks.set i .cooling⟩
          ⟨s.avail + 1, s.count + 1, (s.tasks.set i .cooling).set i .done⟩ ∧
    sleep_duration = 0 := by
  have hlt : i < s.tasks.length := by
    rcases List.getElem?_eq_some.mp hcall with ⟨h, _⟩
    exact h
  refine ⟨VStep.callOkCooldown i s hcall hmod, ?_, rfl⟩
  exact VStep.wake i ⟨s.avail, s.count + 1, s.tasks.set i .cooling⟩
    (List.getElem?_set_eq_of_lt _ hlt)

/-- Witness for the amended C8 at a concrete input: a task completing the
5th successful call goes to sleep holding its permit, then releases it. -/
theorem cooldown_witness :
    VStep ⟨4, 4, [VTask.calling]⟩ ⟨4, 5, [VTask.cooling]⟩ ∧
    VStep ⟨4, 5, [VTask.cooling]⟩ ⟨5, 5, [VTask.done]⟩ ∧
    sleep_duration = 0 :=
  cooldown_pauses_completing_task_only ⟨4, 4, [VTask.calling]⟩ 0 rfl (by decide)

end GeminiVideo

namespace ExtractAnswers

/-- The capture class `[A-E]` of both regexes in
`extract_answers.py::extract_answer_from_json`. -/
def answerLetters : List Char := ['A', 'B', 'C', 'D', 'E']

/-- Python's `\s` on the ASCII range (space, tab, newline, carriage
return, vertical tab, form feed); Unicode whitespace beyond ASCII is not
modelled. -/
def isSpaceChar (c : Char) : Bool :=
  c == ' ' || c == '\t' || c == '\n' || c == '\r' || c == '\x0b' || c == '\x0c'

/-- The literal `<answer>` of both regexes. -/
def openTag : List Char := ['<', 'a', 'n', 's', 'w', 'e', 'r', '>']

/-- The literal `</answer>` of both regexes. -/
def closeTag : List Char := ['<', '/', 'a', 'n', 's', 'w', 'e', 'r', '>']

/-- Whether `p` is a prefix of `s`. -/
def beginsWith : List Char → List Char → Bool
  | [], _ => true
  | _ :: _, [] => false
  | p :: ps, c :: cs => p == c && beginsWith ps cs

/-- Correctness of `beginsWith` against the declarative splitting. -/
theorem beginsWith_iff (p s : List Char) :
    beginsWith p s = true ↔ ∃ t, s = p ++ t := by
  induction p generalizing s with
  | nil =>
      simp [beginsWith]
  | cons x xs ih =>
      cases s with
      | nil =>
          constructor
          · intro h; exact absurd h (by simp [beginsWith])
          · rintro ⟨t, ht⟩; exact absurd ht (by simp)
      | cons c cs =>
          rw [show beginsWith (x :: xs) (c :: cs) = (x == c && beginsWith xs cs) from rfl,
            Bool.and_eq_true, beq_iff_eq, ih]
          constructor
          · rintro ⟨rfl, t, rfl⟩; exact ⟨t, rfl⟩
          · rintro ⟨t, ht⟩
            injection ht with h1 h2
            exact ⟨h1.symm, t, h2⟩

/-- Whether the lazy tail `.*?</answer>` of the first regex matches here:
some gap containing no newline (the DOTALL flag is not set, so `.` does not
match a newline) followed by the literal closing tag. -/
def gapClose : List Char → Bool
  | [] => false
  | c :: cs => beginsWith closeTag (c :: cs) || (c != '\n' && gapClose cs)

/-- Correctness of `gapClose` against the declarative splitting. -/
theorem gapClose_iff (s : List Char) :
    gapClose s = true ↔ ∃ m b, '\n' ∉ m ∧ s = m ++ closeTag ++ b := by
  induction s with
  | nil =>
      constructor
      · intro h; exact absurd h (by simp [gapClose])
      · rintro ⟨m, b, _, hs⟩
        have := congrArg List.length hs
        simp [closeTag] at this
        omega
  | cons c cs ih =>
      rw [show gapClose (c :: cs) = (beginsWith closeTag (c :: cs) || (c != '\n' && gapClose cs))
          from rfl, Bool.or_eq_true, Bool.and_eq_true, bne_iff_ne, beginsWith_iff, ih]
      constructor
      · rintro (⟨t, ht⟩ | ⟨hne, m, b, hm, rfl⟩)
        · exact ⟨[], t, by simp, by simpa using ht⟩
        · exact ⟨c :: m, b, List.not_mem_cons_of_ne_of_not_mem (Ne.symm hne) hm, rfl⟩
      · rintro ⟨m, b, hm, hs⟩
        cases m with
        | nil =>
            exact Or.inl ⟨b, by simpa using hs⟩
        | cons d m' =>
            injection hs with h1 h2
            subst h1
            refine Or.inr ⟨fun h => hm (by simp [h]), m', b, fun h => hm (by simp [h]), h2⟩

/-- The tail of a first-regex match after the opening tag: a captured
letter, a separator from `[.\s]`, then `.*?</answer>`. -/
def tagTail1 : List Char → Option Char
  | l :: c :: rest =>
      if l ∈ answerLetters ∧ (c = '.' ∨ isSpaceChar c = true) ∧ gapClose rest = true then
        some l
      else none
  | _ => none

/-- A match of `<answer>([A-E])[.\s].*?</answer>` starting at the head of
`s`, returning the captured letter. -/
def match1At (s : List Char) : Option Char :=
  if beginsWith openTag s = true then tagTail1 (s.drop openTag.length) else none

/-- The tail of a second-regex match after the opening tag: the captured
letter immediately followed by the closing tag. -/
def tagTail2 : List Char → Option Char
  | l :: rest => if l ∈ answerLetters ∧ beginsWith closeTag rest = true then some l else none
  | _ => none

/-- A match of `<answer>([A-E])</answer>` starting at the head of `s`. -/
def match2At (s : List Char) : Option Char :=
  if beginsWith openTag s = true then tagTail2 (s.drop openTag.length) else none

/-- Declaratively: `s` is, in its entirety from the first position, an
expected answer tag of the first regex's shape capturing `l`. -/
def Match1With (l : Char) (s : List Char) : Prop :=
  ∃ c m b, l ∈ answerLetters ∧ (c = '.' ∨ isSpaceChar c = true) ∧ '\n' ∉ m ∧
    s = openTag ++ l :: c :: (m ++ closeTag ++ b)

/-- Declaratively: `s` starts with an expected answer tag of the second
regex's shape capturing `l`. -/
def Match2With (l : Char) (s : List Char) : Prop :=
  ∃ b, l ∈ answerLetters ∧ s = openTag ++ l :: (closeTag ++ b)

/-- Correctness of `match1At` against the declarative first-regex match. -/
theorem match1At_some_iff (s : List Char) (l : Char) :
    match1At s = some l ↔ Match1With l s := by
  constructor
  · intro h
    unfold match1At at h
    by_cases hb : beginsWith openTag s = true
    · rw [if_pos hb] at h
      obtain ⟨t, rfl⟩ := (beginsWith_iff openTag s).mp hb
      rw [List.drop_left] at h
      cases t with
      | nil => exact absurd h (by simp [tagTail1])
      | cons x t' =>
          cases t' with
          | nil => exact absurd h (by simp [tagTail1])
          | cons c rest =>
              by_cases hcond :
                  x ∈ answerLetters ∧ (c = '.' ∨ isSpaceChar c = true) ∧ gapClose rest = true
              · rw [show tagTail1 (x :: c :: rest)
                    = if x ∈ answerLetters ∧ (c = '.' ∨ isSpaceChar c = true)
                        ∧ gapClose rest = true then some x else none from rfl,
                  if_pos hcond] at h
                injection h with h'
                subst h'
                obtain ⟨m, b, hm, rfl⟩ := (gapClose_iff rest).mp hcond.2.2
                exact ⟨c, m, b, hcond.1, hcond.2.1, hm, rfl⟩
              · rw [show tagTail1 (x :: c :: rest)
                    = if x ∈ answerLetters ∧ (c = '.' ∨ isSpaceChar c = true)
                        ∧ gapClose rest = true then some x else none from rfl,
                  if_neg hcond] at h
                cases h
    · rw [if_neg hb] at h
      cases h
  · rintro ⟨c, m, b, hl, hc, hm, rfl⟩
    have hb : beginsWith openTag (openTag ++ l :: c :: (m ++ closeTag ++ b)) = true :=
      (beginsWith_iff _ _).mpr ⟨_, rfl⟩
    unfold match1At
    rw [if_pos hb, List.drop_left]
    rw [show tagTail1 (l :: c :: (m ++ closeTag ++ b))
        = if l ∈ answerLetters ∧ (c = '.' ∨ isSpaceChar c = true)
            ∧ gapClose (m ++ closeTag ++ b) = true then some l else none from rfl]
    rw [if_pos ⟨hl, hc, (gapClose_iff _).mpr ⟨m, b, hm, rfl⟩⟩]

/-- Correctness of `match2At` against the declarative second-regex match. -/
theorem match2At_some_iff (s : List Char) (l : Char) :
    match2At s = some l ↔ Match2With l s := by
  constructor
  · intro h
    unfold match2At at h
    by_cases hb : beginsWith openTag s = true
    · rw [if_pos hb] at h
      obtain ⟨t, rfl⟩ := (beginsWith_iff openTag s).mp hb
      rw [List.drop_left] at h
      cases t with
      | nil => exact absurd h (by simp [tagTail2])
      | cons x rest =>
          by_cases hcond : x ∈ answerLetters ∧ beginsWith closeTag rest = true
          · rw [show tagTail2 (x :: rest)
                = if x ∈ answerLetters ∧ beginsWith closeTag rest = true then some x
                  else none from rfl, if_pos hcond] at h
            injection h with h'
            subst h'
            obtain ⟨b, rfl⟩ := (beginsWith_iff closeTag rest).mp hcond.2
            exact ⟨b, hcond.1, rfl⟩
          · rw [show tagTail2 (x :: rest)
                = if x ∈ answerLetters ∧ beginsWith closeTag rest = true then some x
                  else none from rfl, if_neg hcond] at h
            cases h
    · rw [if_neg hb] at h
      cases h
  · rintro ⟨b, hl, rfl⟩
    have hb : beginsWith openTag (openTag ++ l :: (closeTag ++ b)) = true :=
      (beginsWith_iff _ _).mpr ⟨_, rfl⟩
    unfold match2At
    rw [if_pos hb, List.drop_left]
    rw [show tagTail2 (l :: (closeTag ++ b))
        = if l ∈ answerLetters ∧ beginsWith closeTag (closeTag ++ b) = true then some l
          else none from rfl]
    rw [if_pos ⟨hl, (beginsWith_iff _ _).mpr ⟨b, rfl⟩⟩]

/-- A position matcher that returns `none` admits no declarative match. -/
theorem match1At_none (s : List Char) (h : match1At s = none) (l : Char) :
    ¬ Match1With l s := by
  intro hm
  rw [← match1At_some_iff] at hm
  rw [h] at hm
  cases hm

/-- Second-regex version of `match1At_none`. -/
theorem match2At_none (s : List Char) (h : match2At s = none) (l : Char) :
    ¬ Match2With l s := by
  intro hm
  rw [← match2At_some_iff] at hm
  rw [h] at hm
  cases hm

/-- Model of `re.search` with the first regex: try a match at each position, left to
right, returning the leftmost match's captured letter. -/
def search1 : List Char → Option Char
  | [] => none
  | c :: cs =>
      match match1At (c :: cs) with
      | some l => some l
      | none => search1 cs

/-- Model of `re.search` with the second regex. -/
def search2 : List Char → Option Char
  | [] => none
  | c :: cs =>
      match match2At (c :: cs) with
      | some l => some l
      | none => search2 cs

/-- Search `search1` misses exactly when no position carries a first-regex match. -/
theorem search1_eq_none_iff (s : List Char) :
    search1 s = none ↔ ∀ l a r, s = a ++ r → ¬ Match1With l r := by
  induction s with
  | nil =>
      simp only [search1, true_iff]
      intro l a r h hm
      have hr : r = [] := (List.append_eq_nil.mp h.symm).2
      subst hr
      exact match1At_none [] rfl l hm
  | cons c cs ih =>
      cases hm : match1At (c :: cs) with
      | some l =>
          simp only [search1, hm]
          constructor
          · intro h; cases h
          · intro h
            exact absurd ((match1At_some_iff (c :: cs) l).mp hm) (h l [] (c :: cs) rfl)
      | none =>
          simp only [search1, hm, ih]
          constructor
          · intro h l a r hsplit
            cases a with
            | nil =>
                have : r = c :: cs := by simpa using hsplit.symm
                subst this
                exact match1At_none (c :: cs) hm l
            | cons d a' =>
                injection hsplit with h1 h2
                exact h l a' r h2
          · intro h l a r hsplit
            exact h l (c :: a) r (by rw [hsplit]; rfl)

/-- Search `search2` misses exactly when no position carries a second-regex match. -/
theorem search2_eq_none_iff (s : List Char) :
    search2 s = none ↔ ∀ l a r, s = a ++ r → ¬ Match2With l r := by
  induction s with
  | nil =>
      simp only [search2, true_iff]
      intro l a r h hm
      have hr : r = [] := (List.append_eq_nil.mp h.symm).2
      subst hr
      exact match2At_none [] rfl l hm
  | cons c cs ih =>
      cases hm : match2At (c :: cs) with
      | some l =>
          simp only [search2, hm]
          constructor
          · intro h; cases h
          · intro h
            exact absurd ((match2At_some_iff (c :: cs) l).mp hm) (h l [] (c :: cs) rfl)
      | none =>
          simp only [search2, hm, ih]
          constructor
          · intro h l a r hsplit
            cases a with
            | nil =>
                have : r = c :: cs := by simpa using hsplit.symm
                subst this
                exact match2At_none (c :: cs) hm l
            | cons d a' =>
                injection hsplit with h1 h2
                exact h l a' r h2
          · intro h l a r hsplit
            exact h l (c :: a) r (by rw [hsplit]; rfl)

/-- A hit of `search1` is a first-regex match at some position. -/
theorem search1_eq_some (s : List Char) (l : Char) (h : search1 s = some l) :
    ∃ a r, s = a ++ r ∧ Match1With l r := by
  induction s with
  | nil => cases h
  | cons c cs ih =>
      cases hm : match1At (c :: cs) with
      | some x =>
          simp only [search1, hm] at h
          injection h with h'
          exact ⟨[], c :: cs, rfl, h' ▸ (match1At_some_iff (c :: cs) x).mp hm⟩
      | none =>
          simp only [search1, hm] at h
          obtain ⟨a, r, rfl, hmm⟩ := ih h
          exact ⟨c :: a, r, rfl, hmm⟩

/-- A hit of `search2` is a second-regex match at some position. -/
theorem search2_eq_some (s : List Char) (l : Char) (h : search2 s = some l) :
    ∃ a r, s = a ++ r ∧ Match2With l r := by
  induction s with
  | nil => cases h
  | cons c cs ih =>
      cases hm : match2At (c :: cs) with
      | some x =>
          simp only [search2, hm] at h
          injection h with h'
          exact ⟨[], c :: cs, rfl, h' ▸ (match2At_some_iff (c :: cs) x).mp hm⟩
      | none =>
          simp only [search2, hm] at h
          obtain ⟨a, r, rfl, hmm⟩ := ih h
          exact ⟨c :: a, r, rfl, hmm⟩

/-- Embedding of `extract_answers.py::extract_answer_from_json` (lines
7-21): `json_content.get('answer', '')` is the optional answer field with
default `""`; the spaced-letter regex is tried first, then the bare-letter
regex; `None` when neither matches. -/
def extract_answer_from_json (answerField : Option String) : Option Char :=
  let answer_text := answerField.getD ""
  match search1 answer_text.toList with
  | some l => some l
  | none => search2 answer_text.toList

/-- The expected answer tag, in either of the two accepted shapes, occurs
somewhere in the text, capturing letter `l`. -/
def ExpectedTagWith (l : Char) (s : List Char) : Prop :=
  ∃ a r, s = a ++ r ∧ (Match1With l r ∨ Match2With l r)

/-- Claim C9: the extraction step returns `None` exactly when the expected
answer tag (either accepted shape) is nowhere in the free-form text, and
when it succeeds the extracted value is a capital letter among A-E captured
from an `<answer>...</answer>` tag occurring in the text. -/
theorem extract_answer_none_iff_tag_missing (answerField : Option String) :
    (extract_answer_from_json answerField = none
      ↔ ¬ ∃ l, ExpectedTagWith l (answerField.getD "").toList) ∧
    (∀ l, extract_answer_from_json answerField = some l →
      l ∈ answerLetters ∧ ExpectedTagWith l (answerField.getD "").toList) := by
  rw [show extract_answer_from_json answerField
      = (match search1 (answerField.getD "").toList with
         | some l => some l
         | none => search2 (answerField.getD "").toList) from rfl]
  generalize (answerField.getD "").toList = t
  cases h1 : search1 t with
  | some x =>
      constructor
      · show some x = none ↔ ¬ ∃ l, ExpectedTagWith l t
        constructor
        · intro h; cases h
        · intro h
          exfalso
          obtain ⟨a, r, hsplit, hmm⟩ := search1_eq_some t x h1
          exact h ⟨x, a, r, hsplit, Or.inl hmm⟩
      · intro l h
        have h' : some x = some l := h
        injection h' with h''
        rw [← h'']
        obtain ⟨a, r, hsplit, hmm⟩ := search1_eq_some t x h1
        have hl : x ∈ answerLetters := by
          obtain ⟨c, m, b, hl, -, -, -⟩ := hmm
          exact hl
        exact ⟨hl, a, r, hsplit, Or.inl hmm⟩
  | none =>
      constructor
      · show search2 t = none ↔ ¬ ∃ l, ExpectedTagWith l t
        constructor
        · intro h2
          rintro ⟨l, a, r, hsplit, hmm | hmm⟩
          · exact (search1_eq_none_iff t).mp h1 l a r hsplit hmm
          · exact (search2_eq_none_iff t).mp h2 l a r hsplit hmm
        · intro h
          rw [search2_eq_none_iff]
          intro l a r hsplit hmm
          exact h ⟨l, a, r, hsplit, Or.inr hmm⟩
      · intro l h
        have h' : search2 t = some l := h
        obtain ⟨a, r, hsplit, hmm⟩ := search2_eq_some t l h'
        have hl : l ∈ answerLetters := by
          obtain ⟨b, hl, -⟩ := hmm
          exact hl
        exact ⟨hl, a, r, hsplit, Or.inr hmm⟩

end ExtractAnswers

namespace ChooseMajority

/-- Appending one CSV row's answer to the per-id dictionary
(`choose_majority.py` lines 29-38: `all_answers[id_num].append(answer)`,
with dict keys in insertion order). -/
def addRow : List (Nat × List String) → Nat → String → List (Nat × List String)
  | [], i, a => [(i, [a])]
  | (j, ans) :: rest, i, a =>
      if j = i then (j, ans ++ [a]) :: rest else (j, ans) :: addRow rest i a

/-- The `all_answers` dictionary built from all successfully read CSV rows
in file order (`choose_majority.py` lines 14-42; files and rows are
processed in order, and files that fail to read are skipped — the input
here is the list of rows of the readable files). -/
def collect (rows : List (Nat × String)) : List (Nat × List String) :=
  rows.foldl (fun acc r => addRow acc r.1 r.2) []

/-- Dictionary lookup in the association list. -/
def findAnswers : List (Nat × List String) → Nat → Option (List String)
  | [], _ => none
  | (j, ans) :: rest, i => if j = i then some ans else findAnswers rest i

/-- All answers recorded for id `i` across the given rows, in encounter
order. -/
def answersFor (rows : List (Nat × String)) (i : Nat) : List String :=
  (rows.filter (fun r => r.1 = i)).map (fun r => r.2)

/-- Embedding of `max(counter.values())` over the multiset of answers
(`choose_majority.py` line 51): the counts are exactly the counts of the
answers themselves. -/
def maxCount (answers : List String) : Nat :=
  (answers.map (fun a => answers.count a)).foldl max 0

/-- Embedding of `min(max_answers)` (`choose_majority.py` lines 53-57): the minimum of
the answers attaining the maximal count.  `Counter.items()` lists each
distinct answer once; the minimum over the filtered list with repetitions
is the same value.  The `""` branch is unreachable for nonempty input. -/
def majority_answer (answers : List String) : String :=
  match answers.filter (fun a => answers.count a = maxCount answers) with
  | [] => ""
  | a :: rest => rest.foldl min a

/-- Insertion step of the by-id sort (`result_df.sort_values('id')`,
line 66; ids in `collect`'s output are distinct, so any comparison sort
produces the same list). -/
def insertById (x : Nat × String) : List (Nat × String) → List (Nat × String)
  | [] => [x]
  | y :: ys => if x.1 ≤ y.1 then x :: y :: ys else y :: insertById x ys

/-- Sort the aggregated table by id. -/
def sortById (l : List (Nat × String)) : List (Nat × String) :=
  l.foldr insertById []

/-- Embedding of `choose_majority.py::find_majority_answers` (lines 4-68)
on the rows of the readable input tables. -/
def find_majority_answers (tables : List (List (Nat × String))) : List (Nat × String) :=
  sortById ((collect tables.flatten).map (fun p => (p.1, majority_answer p.2)))

/-- Inserting permutes to consing. -/
theorem insertById_perm (x : Nat × String) (l : List (Nat × String)) :
    List.Perm (insertById x l) (x :: l) := by
  induction l with
  | nil => exact List.Perm.refl _
  | cons y ys ih =>
      by_cases h : x.1 ≤ y.1
      · rw [insertById, if_pos h]
      · rw [insertById, if_neg h]
        exact List.Perm.trans (List.Perm.cons y ih) (List.Perm.swap x y ys)

/-- Inserting preserves by-id sortedness. -/
theorem insertById_sorted (x : Nat × String) (l : List (Nat × String))
    (h : l.Pairwise (fun p q => p.1 ≤ q.1)) :
    (insertById x l).Pairwise (fun p q => p.1 ≤ q.1) := by
  induction l with
  | nil => simp [insertById]
  | cons y ys ih =>
      rcases List.pairwise_cons.mp h with ⟨hy, hys⟩
      by_cases hle : x.1 ≤ y.1
      · rw [insertById, if_pos hle]
        refine List.pairwise_cons.mpr ⟨?_, h⟩
        intro z hz
        rcases List.mem_cons.mp hz with rfl | hz
        · exact hle
        · exact le_trans hle (hy z hz)
      · rw [insertById, if_neg hle]
        refine List.pairwise_cons.mpr ⟨?_, ih hys⟩
        intro z hz
        have hz' := (insertById_perm x ys).mem_iff.mp hz
        rcases List.mem_cons.mp hz' with rfl | hz'
        · omega
        · exact hy z hz'

/-- The by-id sort permutes its input. -/
theorem sortById_perm (l : List (Nat × String)) : List.Perm (sortById l) l := by
  induction l with
  | nil => exact List.Perm.refl _
  | cons x xs ih =>
      exact List.Perm.trans (insertById_perm x (sortById xs)) (List.Perm.cons x ih)

/-- The by-id sort sorts. -/
theorem sortById_sorted (l : List (Nat × String)) :
    (sortById l).Pairwise (fun p q => p.1 ≤ q.1) := by
  induction l with
  | nil => simp [sortById]
  | cons x xs ih => exact insertById_sorted x (sortById xs) ih

/-- The seed is bounded by a `foldl max`. -/
theorem init_le_foldl_max (l : List Nat) (init : Nat) : init ≤ l.foldl max init := by
  induction l generalizing init with
  | nil => exact le_refl init
  | cons y ys ih => exact le_trans (le_max_left init y) (ih (max init y))

/-- Every list member is bounded by a `foldl max`. -/
theorem le_foldl_max (l : List Nat) (init x : Nat) (hx : x ∈ l) : x ≤ l.foldl max init := by
  induction l generalizing init with
  | nil => cases hx
  | cons y ys ih =>
      rw [List.foldl_cons]
      rcases List.mem_cons.mp hx with rfl | hx
      · have h1 : x ≤ max init x := le_max_right init x
        have h2 : max init x ≤ ys.foldl max (max init x) := init_le_foldl_max ys (max init x)
        exact le_trans h1 h2
      · exact ih (max init y) hx

/-- A `foldl max` is its seed or attained by a member. -/
theorem foldl_max_mem (l : List Nat) (init : Nat) :
    l.foldl max init = init ∨ l.foldl max init ∈ l := by
  induction l generalizing init with
  | nil => exact Or.inl rfl
  | cons y ys ih =>
      rw [List.foldl_cons]
      rcases ih (max init y) with h | h
      · by_cases hy : init ≤ y
        · right
          rw [h, max_eq_right hy]
          exact List.mem_cons_self y ys
        · left
          rw [h, max_eq_left (le_of_not_le hy)]
      · right
        exact List.mem_cons_of_mem y h

/-- A `foldl min` lands in the seed-extended list. -/
theorem foldl_min_mem (l : List String) (a : String) : l.foldl min a ∈ a :: l := by
  induction l generalizing a with
  | nil => exact List.mem_singleton.mpr rfl
  | cons y ys ih =>
      rw [List.foldl_cons]
      rcases List.mem_cons.mp (ih (min a y)) with h | h
      · rcases min_choice a y with hm | hm
        · exact List.mem_cons.mpr (Or.inl (h.trans hm))
        · exact List.mem_cons.mpr (Or.inr (List.mem_cons.mpr (Or.inl (h.trans hm))))
      · exact List.mem_cons.mpr (Or.inr (List.mem_cons.mpr (Or.inr h)))

/-- A `foldl min` is bounded by its seed. -/
theorem foldl_min_le_init (l : List String) (a : String) : l.foldl min a ≤ a := by
  induction l generalizing a with
  | nil => exact le_refl a
  | cons y ys ih => exact le_trans (ih (min a y)) (min_le_left a y)

/-- A `foldl min` bounds every element of the seed-extended list. -/
theorem foldl_min_le (l : List String) (a x : String) (hx : x ∈ a :: l) :
    l.foldl min a ≤ x := by
  induction l generalizing a with
  | nil =>
      rcases List.mem_singleton.mp hx with rfl
      exact le_refl x
  | cons y ys ih =>
      rw [List.foldl_cons]
      rcases List.mem_cons.mp hx with rfl | hx'
      · exact le_trans (foldl_min_le_init ys (min x y)) (min_le_left x y)
      · rcases List.mem_cons.mp hx' with rfl | hx''
        · exact le_trans (foldl_min_le_init ys (min a x)) (min_le_right a x)
        · exact ih (min a y) (List.mem_cons.mpr (Or.inr hx''))

/-- Every answer's count is bounded by `maxCount`. -/
theorem count_le_maxCount (answers : List String) (b : String) :
    answers.count b ≤ maxCount answers := by
  by_cases hb : b ∈ answers
  · exact le_foldl_max _ 0 _ (List.mem_map_of_mem _ hb)
  · rw [List.count_eq_zero.mpr hb]
    exact Nat.zero_le _

/-- For nonempty input the maximal count is attained. -/
theorem maxCount_mem (answers : List String) (h : answers ≠ []) :
    ∃ a ∈ answers, answers.count a = maxCount answers := by
  rcases foldl_max_mem (answers.map fun a => answers.count a) 0 with h0 | hmem
  · exfalso
    cases answers with
    | nil => exact h rfl
    | cons a rest =>
        have hmem : a ∈ a :: rest := List.mem_cons_self a rest
        have h1 : (a :: rest).count a ≠ 0 := fun hz => (List.count_eq_zero.mp hz) hmem
        have h2 : (a :: rest).count a ≤ maxCount (a :: rest) := count_le_maxCount _ a
        rw [maxCount] at h2
        rw [h0] at h2
        omega
  · obtain ⟨a, ha, hc⟩ := List.mem_map.mp hmem
    exact ⟨a, ha, hc⟩

/-- The chosen majority answer occurs in the input, attains the maximal
count, and is the least among the answers attaining it. -/
theorem majority_answer_spec (answers : List String) (h : answers ≠ []) :
    majority_answer answers ∈ answers ∧
    answers.count (majority_answer answers) = maxCount answers ∧
    ∀ b, answers.count b = maxCount answers → majority_answer answers ≤ b := by
  obtain ⟨a0, ha0, hc0⟩ := maxCount_mem answers h
  have hmemfil : a0 ∈ answers.filter (fun a => answers.count a = maxCount answers) :=
    List.mem_filter.mpr ⟨ha0, by simpa using hc0⟩
  cases hfil : answers.filter (fun a => answers.count a = maxCount answers) with
  | nil =>
      rw [hfil] at hmemfil
      cases hmemfil
  | cons a rest =>
      have hres : majority_answer answers = rest.foldl min a := by
        rw [majority_answer, hfil]
      have hmem : rest.foldl min a ∈ a :: rest := foldl_min_mem rest a
      rw [← hfil] at hmem
      have hmem' := List.mem_filter.mp hmem
      refine ⟨hres ▸ hmem'.1, hres ▸ (by simpa using hmem'.2), ?_⟩
      intro b hb
      by_cases hbmem : b ∈ answers
      · have hbfil : b ∈ answers.filter (fun a => answers.count a = maxCount answers) :=
          List.mem_filter.mpr ⟨hbmem, by simpa using hb⟩
        rw [hfil] at hbfil
        exact hres ▸ foldl_min_le rest a b hbfil
      · exfalso
        have hz : answers.count b = 0 := List.count_eq_zero.mpr hbmem
        have h1 : answers.count a0 ≠ 0 := fun hz0 => (List.count_eq_zero.mp hz0) ha0
        omega

/-- Looking up the key just added to the dictionary. -/
theorem findAnswers_addRow_self (acc : List (Nat × List String)) (i : Nat) (a : String) :
    findAnswers (addRow acc i a) i = some ((findAnswers acc i).getD [] ++ [a]) := by
  induction acc with
  | nil => simp [addRow, findAnswers]
  | cons p rest ih =>
      obtain ⟨j, ans⟩ := p
      by_cases hj : j = i
      · subst hj
        simp [addRow, findAnswers]
      · rw [addRow, if_neg hj, findAnswers, if_neg hj, findAnswers, if_neg hj, ih]

/-- Looking up a different key after adding. -/
theorem findAnswers_addRow_ne (acc : List (Nat × List String)) (i k : Nat) (a : String)
    (hk : k ≠ i) :
    findAnswers (addRow acc i a) k = findAnswers acc k := by
  induction acc with
  | nil =>
      have hik : i ≠ k := fun h => hk h.symm
      simp [addRow, findAnswers, hik]
  | cons p rest ih =>
      obtain ⟨j, ans⟩ := p
      by_cases hj : j = i
      · subst hj
        rw [addRow, if_pos rfl, findAnswers, findAnswers]
        by_cases hjk : j = k
        · exact absurd hjk.symm hk
        · rw [if_neg hjk, if_neg hjk]
      · rw [addRow, if_neg hj, findAnswers, findAnswers, ih]

/-- Folding rows into the dictionary appends, per id, exactly the answers
of those rows, in order. -/
theorem findAnswers_collect_go (rows : List (Nat × String)) (i : Nat) :
    ∀ acc : List (Nat × List String),
      findAnswers (rows.foldl (fun acc r => addRow acc r.1 r.2) acc) i
        = match findAnswers acc i with
          | some l => some (l ++ answersFor rows i)
          | none => if answersFor rows i = [] then none else some (answersFor rows i) := by
  induction rows with
  | nil =>
      intro acc
      cases hacc : findAnswers acc i <;> simp [answersFor, hacc]
  | cons r rest ih =>
      intro acc
      obtain ⟨j, a⟩ := r
      rw [List.foldl_cons]
      rw [ih (addRow acc j a)]
      by_cases hj : j = i
      · subst hj
        rw [findAnswers_addRow_self]
        have hAf : answersFor ((j, a) :: rest) j = a :: answersFor rest j := by
          simp [answersFor]
        rw [hAf]
        cases hacc : findAnswers acc j with
        | some l => simp [hacc]
        | none => simp [hacc]
      · rw [findAnswers_addRow_ne acc j i a (fun h => hj h.symm)]
        have hAf : answersFor ((j, a) :: rest) i = answersFor rest i := by
          simp [answersFor, hj]
        rw [hAf]

/-- The dictionary built by `collect` holds, for an id with at least one
row, exactly that id's answers in encounter order. -/
theorem findAnswers_collect (rows : List (Nat × String)) (i : Nat)
    (h : ¬ answersFor rows i = []) :
    findAnswers (collect rows) i = some (answersFor rows i) := by
  have hgo := findAnswers_collect_go rows i []
  rw [show findAnswers [] i = none from rfl] at hgo
  simp only [if_neg h] at hgo
  exact hgo

/-- A successful dictionary lookup is a membership. -/
theorem mem_of_findAnswers (c : List (Nat × List String)) (i : Nat) (l : List String)
    (h : findAnswers c i = some l) : (i, l) ∈ c := by
  induction c with
  | nil => cases h
  | cons p rest ih =>
      obtain ⟨j, ans⟩ := p
      by_cases hj : j = i
      · subst hj
        rw [findAnswers, if_pos rfl] at h
        injection h with h'
        subst h'
        exact List.mem_cons_self _ _
      · rw [findAnswers, if_neg hj] at h
        exact List.mem_cons_of_mem _ (ih h)

/-- Claim C10: for every identifier appearing in at least one input table,
the aggregated output has an entry for it whose answer is one of that
identifier's collected answers, attains the maximal occurrence count among
them, and is the alphabetically least among the answers tied at that
count; and the output table is sorted by identifier. -/
theorem find_majority_answers_correct (tables : List (List (Nat × String))) (i : Nat)
    (hmem : ∃ t ∈ tables, ∃ a, (i, a) ∈ t) :
    (∃ ans, (i, ans) ∈ find_majority_answers tables ∧
       ans ∈ answersFor tables.flatten i ∧
       (answersFor tables.flatten i).count ans = maxCount (answersFor tables.flatten i) ∧
       ∀ b, (answersFor tables.flatten i).count b = maxCount (answersFor tables.flatten i) →
         ans ≤ b) ∧
    (find_majority_answers tables).Pairwise (fun p q => p.1 ≤ q.1) := by
  obtain ⟨t, ht, a, hat⟩ := hmem
  have hrow : (i, a) ∈ tables.flatten := List.mem_flatten.mpr ⟨t, ht, hat⟩
  have hne : ¬ answersFor tables.flatten i = [] := by
    intro hnil
    have hmem' : a ∈ answersFor tables.flatten i := by
      rw [answersFor]
      exact List.mem_map.mpr ⟨(i, a), List.mem_filter.mpr ⟨hrow, by simp⟩, rfl⟩
    rw [hnil] at hmem'
    cases hmem'
  have hfa : findAnswers (collect tables.flatten) i = some (answersFor tables.flatten i) :=
    findAnswers_collect _ i hne
  have hc : (i, answersFor tables.flatten i) ∈ collect tables.flatten :=
    mem_of_findAnswers _ i _ hfa
  have hmap : (i, majority_answer (answersFor tables.flatten i))
      ∈ (collect tables.flatten).map (fun p => (p.1, majority_answer p.2)) :=
    List.mem_map.mpr ⟨_, hc, rfl⟩
  have hout : (i, majority_answer (answersFor tables.flatten i))
      ∈ find_majority_answers tables := by
    rw [find_majority_answers]
    exact (sortById_perm _).mem_iff.mpr hmap
  obtain ⟨hin, hcnt, hmin⟩ := majority_answer_spec (answersFor tables.flatten i) hne
  refine ⟨⟨majority_answer (answersFor tables.flatten i), hout, hin, hcnt, hmin⟩, ?_⟩
  rw [find_majority_answers]
  exact sortById_sorted _

/-- Witness for C10 at a concrete input: two tables where id 2 collects
["B", "A"], a tie broken alphabetically. -/
theorem find_majority_witness :
    (∃ ans, (2, ans) ∈ find_majority_answers [[(2, "B"), (1, "A")], [(2, "A")]] ∧
       ans ∈ answersFor ([[(2, "B"), (1, "A")], [(2, "A")]] : List (List (Nat × String))).flatten 2 ∧
       (answersFor ([[(2, "B"), (1, "A")], [(2, "A")]] : List (List (Nat × String))).flatten 2).count ans
         = maxCount (answersFor ([[(2, "B"), (1, "A")], [(2, "A")]] : List (List (Nat × String))).flatten 2) ∧
       ∀ b, (answersFor ([[(2, "B"), (1, "A")], [(2, "A")]] : List (List (Nat × String))).flatten 2).count b
         = maxCount (answersFor ([[(2, "B"), (1, "A")], [(2, "A")]] : List (List (Nat × String))).flatten 2) →
         ans ≤ b) ∧
    (find_majority_answers [[(2, "B"), (1, "A")], [(2, "A")]]).Pairwise
      (fun p q => p.1 ≤ q.1) :=
  find_majority_answers_correct [[(2, "B"), (1, "A")], [(2, "A")]] 2
    ⟨[(2, "B"), (1, "A")], List.mem_cons_self _ _, "B", List.mem_cons_self _ _⟩

end ChooseMajority
